import Mathlib

/-!
Verification development for the backtesting tool's ledger, quantity sizer,
statistics engine and backtest runner.

Python `Decimal` values are modelled as exact rationals (`ℚ`); the explicit
`quantize` calls of the source are modelled by the rounding functions below.
Wall-clock fields (`open_time`, `updated_at`, `created_at`) carry no ledger
information and are omitted from the embedded records.
-/

/-- Round a rational to an integer, ties away from zero
(Python `ROUND_HALF_UP`). -/
def roundHalfUpZ (y : ℚ) : ℤ :=
  if 0 ≤ y then ⌊y + 1/2⌋ else -⌊-y + 1/2⌋

/-- Round a rational to an integer, away from zero (Python `ROUND_UP`). -/
def roundUpZ (y : ℚ) : ℤ :=
  if 0 ≤ y then ⌈y⌉ else ⌊y⌋

/-- Round a rational to an integer, toward zero (Python `ROUND_DOWN`). -/
def roundDownZ (y : ℚ) : ℤ :=
  if 0 ≤ y then ⌊y⌋ else ⌈y⌉

/-- Python `Decimal.quantize` to `scale` fractional digits with `ROUND_HALF_UP`;
`to_dec(value, scale)` of `calc_utils.py`. -/
def quantHalfUp (scale : ℕ) (x : ℚ) : ℚ :=
  (roundHalfUpZ (x * 10 ^ scale) : ℚ) / 10 ^ scale

/-- Quantize to 8 fractional digits, `ROUND_HALF_UP`
(`.quantize(Decimal('0.00000001'), rounding=ROUND_HALF_UP)`). -/
def q8half (x : ℚ) : ℚ := quantHalfUp 8 x

/-- Quantize to 8 fractional digits, `ROUND_UP`. -/
def q8up (x : ℚ) : ℚ := (roundUpZ (x * 10 ^ 8) : ℚ) / 10 ^ 8

/-- Quantize to 8 fractional digits, `ROUND_DOWN`. -/
def q8down (x : ℚ) : ℚ := (roundDownZ (x * 10 ^ 8) : ℚ) / 10 ^ 8

/-- A rational that is exactly representable with 8 fractional digits. -/
def isDec8 (x : ℚ) : Prop := ∃ n : ℤ, x = (n : ℚ) / 10 ^ 8

/-- The `TradeAction` enumeration of `app/models/enums.py`. -/
inductive TradeAction
  | BUY
  | SELL
  | HOLD
  | SHORT_SELL
  | COVER_SHORT
deriving DecidableEq, Repr

/-- The `position_side` values (`"LONG"` / `"SHORT"` strings in the source). -/
inductive Side
  | LONG
  | SHORT
deriving DecidableEq, Repr

/-- One entry of `VirtualAccount.long_positions`
(`{"price", "quantity", "total_amount", "open_time"}`; `open_time` omitted). -/
structure LongLot where
  price : ℚ
  quantity : ℚ
  total_amount : ℚ
deriving DecidableEq, Repr

/-- One entry of `VirtualAccount.short_positions`
(`{"price", "quantity", "total_amount", "margin_used", "open_time"}`). -/
structure ShortLot where
  price : ℚ
  quantity : ℚ
  total_amount : ℚ
  margin_used : ℚ
deriving DecidableEq, Repr

/-- The ledger fields of `VirtualAccount` (`app/models/models.py`).
Identity/bookkeeping columns (`account_id`, `stock_symbol`, `market_type`,
timestamps) are omitted; fee configuration lives on the account as in the
source. -/
structure VirtualAccount where
  initial_balance : ℚ
  current_balance : ℚ
  stock_price : ℚ
  stock_quantity : ℚ
  stock_market_value : ℚ
  total_value : ℚ
  position_side : Side
  margin_used : ℚ
  short_avg_price : ℚ
  short_total_cost : ℚ
  short_positions : List ShortLot
  long_positions : List LongLot
  available_balance : ℚ
  commission_rate_buy : ℚ
  commission_rate_sell : ℚ
  tax_rate : ℚ
  min_commission : ℚ
  total_fees : ℚ
deriving DecidableEq, Repr

/-- Result of `calculate_trading_fees`. -/
structure TradeFees where
  commission : ℚ
  tax : ℚ
  total_fees : ℚ
deriving DecidableEq, Repr

/-- Embeds `calculate_trading_fees` of `app/services/trading_service.py`
(the fee configuration object is the account itself, as passed by
`execute_trade` and `TradeQuantityCalculator`). -/
def calculate_trading_fees (action : TradeAction) (quantity price : ℚ)
    (fee_config : VirtualAccount) : TradeFees :=
  let trade_amount := q8half (quantity * price)
  let commission_rate :=
    if action = .BUY ∨ action = .COVER_SHORT then fee_config.commission_rate_buy
    else fee_config.commission_rate_sell
  let current_tax_rate :=
    if action = .BUY ∨ action = .COVER_SHORT then (0 : ℚ) else fee_config.tax_rate
  let commission := max (q8half (trade_amount * commission_rate)) fee_config.min_commission
  let tax :=
    if action = .SELL ∨ action = .SHORT_SELL then q8half (trade_amount * current_tax_rate)
    else 0
  { commission := commission, tax := tax, total_fees := commission + tax }

/-- Embeds `fees.get('total_fees', Decimal('0')) if fees else Decimal('0')`. -/
def feeTotal (fees : Option TradeFees) : ℚ :=
  match fees with
  | some f => f.total_fees
  | none => 0

/-- FIFO consumption of `long_positions` inside the SELL branch of
`update_account_for_trade` (lines 149-186): kept lots in order; the lot
straddling the boundary is split, its `total_amount` recomputed. -/
def sellLongFifo : List LongLot → ℚ → List LongLot
  | [], _ => []
  | pos :: rest, remaining =>
    if remaining ≤ 0 then pos :: sellLongFifo rest remaining
    else if remaining ≥ pos.quantity then sellLongFifo rest (remaining - pos.quantity)
    else
      { price := pos.price
        quantity := pos.quantity - remaining
        total_amount := pos.price * (pos.quantity - remaining) } :: sellLongFifo rest 0

/-- FIFO consumption of `short_positions` inside `_update_short_positions`
for COVER_SHORT; returns the surviving lots, the cost removed from
`short_total_cost` and the released margin (proportional on a partial
close; the kept remainder's margin is reset to `price * quantity`). -/
def coverShortFifo : List ShortLot → ℚ → List ShortLot × ℚ × ℚ
  | [], _ => ([], 0, 0)
  | pos :: rest, remaining =>
    if remaining ≤ 0 then
      let r := coverShortFifo rest remaining
      (pos :: r.1, r.2.1, r.2.2)
    else if remaining ≥ pos.quantity then
      let r := coverShortFifo rest (remaining - pos.quantity)
      (r.1, r.2.1 + pos.price * pos.quantity, r.2.2 + pos.margin_used)
    else
      let remaining_pos_quantity := pos.quantity - remaining
      let r := coverShortFifo rest 0
      ({ price := pos.price
         quantity := remaining_pos_quantity
         total_amount := pos.price * remaining_pos_quantity
         margin_used := pos.price * remaining_pos_quantity } :: r.1,
       r.2.1 + pos.price * remaining,
       r.2.2 + pos.margin_used * remaining / pos.quantity)

/-- Embeds `_update_short_positions` of `app/services/trading_service.py`: returns
`(new_total_cost, new_avg_price, released_margin)` plus the new
`short_positions` list (the source mutates `account.short_positions` in
place). -/
def update_short_positions (account : VirtualAccount) (price quantity : ℚ)
    (action : TradeAction) : ℚ × ℚ × ℚ × List ShortLot :=
  let short_quantity := |account.stock_quantity|
  let current_total_cost := account.short_total_cost
  let current_avg_price := account.short_avg_price
  match action with
  | .SHORT_SELL =>
    let new_total_cost := current_total_cost + price * quantity
    let new_total_quantity := short_quantity + quantity
    let new_avg_price := if new_total_quantity > 0 then new_total_cost / new_total_quantity else 0
    (new_total_cost, new_avg_price, 0,
     account.short_positions ++
       [{ price := price, quantity := quantity, total_amount := price * quantity,
          margin_used := price * quantity }])
  | .COVER_SHORT =>
    let r := coverShortFifo account.short_positions quantity
    let new_total_cost := current_total_cost - r.2.1
    let new_total_quantity := short_quantity - quantity
    let new_avg_price := if new_total_quantity > 0 then new_total_cost / new_total_quantity else 0
    (new_total_cost, new_avg_price, r.2.2, r.1)
  | _ => (current_total_cost, current_avg_price, 0, account.short_positions)

/-- The unconditional commit pass of `update_account_for_trade`
(`trading_service.py` lines 276-349): quantize the position, rederive
`position_side`, commit the cash balance (non-HOLD only, clamped at 0),
re-mark `stock_price`, `stock_market_value`, `margin_used`, `total_value`
and `available_balance`.  The informational `floating_pl` local is logged
only and not stored, so it is not modelled. -/
def commitTrade (account : VirtualAccount) (action : TradeAction)
    (new_balance new_quantity dec_price : ℚ) : VirtualAccount :=
  let stock_quantity := q8half new_quantity
  let position_side : Side := if stock_quantity < 0 then .SHORT else .LONG
  let current_balance :=
    if action = .HOLD then account.current_balance else max 0 (q8half new_balance)
  let stock_price := q8half dec_price
  let stock_market_value := q8half (stock_quantity * dec_price)
  let margin_used :=
    if stock_quantity < 0 then q8half |stock_market_value| else q8half 0
  let total_value := q8half (current_balance + stock_market_value)
  let available_balance0 :=
    if stock_quantity < 0 then q8down (current_balance - |stock_market_value|)
    else q8down current_balance
  let available_balance := if available_balance0 < 0 then 0 else available_balance0
  { account with
      stock_quantity := stock_quantity
      position_side := position_side
      current_balance := current_balance
      stock_price := stock_price
      stock_market_value := stock_market_value
      margin_used := margin_used
      total_value := total_value
      available_balance := available_balance }

/-- Embeds `update_account_for_trade` of `app/services/trading_service.py`.
Returns the account together with `none` on success or `some tag` where the
source raises `ValueError` (the source messages interpolate amounts; only
their kind is kept).  On a raise the returned account carries exactly the
mutations performed before the raise, as the Python object would. -/
def update_account_for_trade (account : VirtualAccount) (action : TradeAction)
    (quantity price : ℚ) (fees : Option TradeFees) :
    VirtualAccount × Option String :=
  let total_fees := feeTotal fees
  let dec_qty := quantity
  let dec_price := price
  let trade_amount := q8half (dec_qty * dec_price)
  -- `if fees: account.total_fees += total_fees` (before any check)
  let account :=
    match fees with
    | some _ => { account with total_fees := account.total_fees + total_fees }
    | none => account
  match action with
  | .BUY =>
    let required_amount := trade_amount + total_fees
    if account.current_balance < required_amount then
      (account, some "InsufficientFunds")
    else
      let new_balance := account.current_balance - trade_amount - total_fees
      let new_quantity := account.stock_quantity + dec_qty
      let account :=
        { account with
            long_positions := account.long_positions ++
              [{ price := dec_price, quantity := dec_qty, total_amount := trade_amount }] }
      (commitTrade account .BUY new_balance new_quantity dec_price, none)
  | .SELL =>
    let new_balance := account.current_balance + trade_amount - total_fees
    let new_quantity := account.stock_quantity - dec_qty
    if new_quantity < 0 then
      (account, some "OverSell")
    else
      let account :=
        { account with long_positions := sellLongFifo account.long_positions dec_qty }
      (commitTrade account .SELL new_balance new_quantity dec_price, none)
  | .SHORT_SELL =>
    -- re-mark the margin at the current price when already short (lines 194-198)
    let account :=
      if account.stock_quantity < 0 then
        { account with margin_used := q8up |account.stock_quantity * dec_price| }
      else account
    let margin_requirement := trade_amount
    let available_funds := account.available_balance - account.margin_used
    let required_funds := margin_requirement + total_fees
    if available_funds < required_funds then
      (account, some "InsufficientMarginFunds")
    else
      let new_balance := account.current_balance + trade_amount - total_fees
      let new_quantity := account.stock_quantity - dec_qty
      let new_margin_used := account.margin_used + margin_requirement
      let u := update_short_positions account dec_price dec_qty .SHORT_SELL
      let account :=
        { account with
            short_total_cost := u.1
            short_avg_price := u.2.1
            short_positions := u.2.2.2
            margin_used := new_margin_used }
      (commitTrade account .SHORT_SELL new_balance new_quantity dec_price, none)
  | .COVER_SHORT =>
    if account.stock_quantity + dec_qty > 0 then
      (account, some "OverCover")
    else
      let new_balance := account.current_balance - trade_amount - total_fees
      let new_quantity := account.stock_quantity + dec_qty
      let u := update_short_positions account dec_price dec_qty .COVER_SHORT
      let account :=
        { account with
            short_total_cost := u.1
            short_avg_price := u.2.1
            short_positions := u.2.2.2 }
      -- `new_margin_used = max(0, margin_used - released_margin)` is computed
      -- but overwritten by the commit pass below, as in the source
      (commitTrade account .COVER_SHORT new_balance new_quantity dec_price, none)
  | .HOLD =>
    let new_quantity := account.stock_quantity
    (commitTrade account .HOLD account.current_balance new_quantity dec_price, none)

/-- Embeds `TradeQuantityCalculator.calculate_max_direct_buy_quantity` of
`app/services/trade_quantity_calculator.py` (`self.account`, `self.price`
passed explicitly; the optional `available_funds` argument as in the
source, defaulting to `account.available_balance`). -/
def calculate_max_direct_buy_quantity (account : VirtualAccount) (price : ℚ)
    (available_funds : Option ℚ) : ℚ :=
  let current_available_funds := available_funds.getD account.available_balance
  let estimated_max_qty := q8up (current_available_funds / price)
  let estimated_fees := calculate_trading_fees .BUY estimated_max_qty price account
  let total_reserve_fees := estimated_fees.total_fees + account.min_commission
  let final_usable_funds := current_available_funds - total_reserve_fees
  let max_buy_qty := q8down (final_usable_funds / price)
  max 0 max_buy_qty

/-- The spec's formula for the maximum direct-buy quantity, written from the
claim's words: `max(0, floor8((availableCash - (feeModel(BUY,
ceil8(availableCash / price), price) + minCommission)) / price))`, where
`floor8` rounds down to 8 decimals and `ceil8` rounds up. -/
def spec_maxDirectBuy (account : VirtualAccount) (price : ℚ) : ℚ :=
  let available := account.available_balance
  let fee := (calculate_trading_fees .BUY
    ((⌈available / price * 10 ^ 8⌉ : ℚ) / 10 ^ 8) price account).total_fees
  let usable := available - (fee + account.min_commission)
  max 0 ((⌊usable / price * 10 ^ 8⌋ : ℚ) / 10 ^ 8)

/-- Task lifecycle states of `BacktestTask` / `Task.status`. -/
inductive TaskStatus
  | PENDING
  | RUNNING
  | PAUSED
  | CANCELLED
  | COMPLETED
  | FAILED
deriving DecidableEq, Repr

/-- One oracle attempt as the retry loop of
`BacktestProcessor._execute_single_decision` observes it.  `eff` is the
state the attempt COMMITTED before resolving: `execute_decision` runs
trades through `execute_trade`, which commits the ledger mutation and the
trade records per trade, and the exception/null-result paths of
`make_decision_with_agent` return `(None, None)` without any rollback, so a
failed attempt's commits persist and are seen by the next attempt.  `ok`
is whether the attempt resolved with a non-null `(decision, decision_id)`.
An attempt that failed before committing anything has the inert effect
`fun a => (a, [])`; one that raised an exception behaves like a null
result at this level (both continue the retry loop). -/
structure AttemptOutcome where
  eff : VirtualAccount → VirtualAccount × List ℕ
  ok : Bool

/-- The processor state tracked across one backtest run: the ledger, the
trade records written so far (tagged with their decision-date index), the
task status and the progress counters. -/
structure ProcState where
  account : VirtualAccount
  trades : List (ℕ × ℕ)
  status : TaskStatus
  processedItems : ℕ
  totalItems : ℕ

/-- The retry loop of `_execute_single_decision` (`for retry in
range(max_retries)`): consume one oracle attempt per iteration; each
attempt's committed effect is applied to the running state whether or not
the attempt succeeded (the source performs no rollback on failure), and the
loop stops at the first success.  The second component counts the oracle
invocations made. -/
def retryDecision (attempts : ℕ → AttemptOutcome) :
    ℕ → ℕ → VirtualAccount × List ℕ → (VirtualAccount × List ℕ) × ℕ
  | 0, used, acc => (acc, used)
  | n + 1, used, acc =>
    let a := attempts used
    let r := a.eff acc.1
    let acc' := (r.1, acc.2 ++ r.2)
    if a.ok then (acc', used + 1)
    else retryDecision attempts n (used + 1) acc'

/-- Embeds `BacktestProcessor._execute_single_decision`: skip (with a warning and
zero oracle calls) when the price is missing, otherwise run the 3-attempt
retry loop, accumulating every attempt's committed ledger state and trade
records. -/
def execute_single_decision (price : Option ℚ) (attempts : ℕ → AttemptOutcome)
    (account : VirtualAccount) : (VirtualAccount × List ℕ) × ℕ :=
  match price with
  | none => ((account, []), 0)
  | some _ => retryDecision attempts 3 0 (account, [])

/-- The iteration loop of `BacktestProcessor._execute_backtest`
(lines 319-332): at the top of each iteration re-read the task status
(`poll i` models an external pause/cancel write observed by
`_check_task_status`); stop without finalizing on CANCELLED/PAUSED;
otherwise run the single decision, append its trades tagged with the date,
and advance `processed_items` to `i + 1`. -/
def backtestLoop (oracle : ℕ → ℕ → AttemptOutcome) (prices : ℕ → Option ℚ)
    (poll : ℕ → TaskStatus → TaskStatus) : ℕ → List ℕ → ProcState → ProcState
  | _, [], st => st
  | i, d :: rest, st =>
    let polled := poll i st.status
    if polled = .CANCELLED ∨ polled = .PAUSED then { st with status := polled }
    else
      let r := execute_single_decision (prices d) (oracle d) st.account
      backtestLoop oracle prices poll (i + 1) rest
        { st with
            account := r.1.1
            trades := st.trades ++ r.1.2.map (fun t => (d, t))
            status := polled
            processedItems := i + 1 }

/-- Embeds `BacktestProcessor._execute_backtest`: resume at `processed_items` when
entering from PAUSED, otherwise start at 0 with the counter reset; set the
status to RUNNING and run the loop. -/
def execute_backtest (oracle : ℕ → ℕ → AttemptOutcome) (prices : ℕ → Option ℚ)
    (poll : ℕ → TaskStatus → TaskStatus) (dates : List ℕ) (st : ProcState) :
    ProcState :=
  let start_index := if st.status = .PAUSED then st.processedItems else 0
  let st :=
    { st with
        processedItems :=
          if st.status = .RUNNING ∨ st.status = .PAUSED then st.processedItems else 0
        status := .RUNNING }
  backtestLoop oracle prices poll start_index (dates.drop start_index) st

/-- Embeds `BacktestProcessor._reset_account`: restore the initial balance and a
flat position (the source leaves `stock_price` untouched). -/
def reset_account (account : VirtualAccount) : VirtualAccount :=
  { account with
      current_balance := account.initial_balance
      available_balance := account.initial_balance
      stock_quantity := 0
      stock_market_value := 0
      total_value := account.initial_balance
      position_side := .LONG
      margin_used := 0
      short_avg_price := 0
      short_total_cost := 0
      short_positions := []
      long_positions := [] }

/-- Embeds `BacktestProcessor._prepare_account`: wipe the task's trades and reset
the account when entering from PENDING, FAILED or RUNNING; from PAUSED keep
everything. -/
def prepare_account (st : ProcState) : ProcState :=
  if st.status = .PENDING ∨ st.status = .FAILED ∨ st.status = .RUNNING then
    { st with account := reset_account st.account, trades := [] }
  else st

/-- Embeds `BacktestProcessor._finalize_backtest`: leave a CANCELLED/PAUSED run
untouched, otherwise mark the task COMPLETED (the final snapshot and the
statistics write do not touch the ledger). -/
def finalize_backtest (st : ProcState) : ProcState :=
  if st.status = .CANCELLED ∨ st.status = .PAUSED then st
  else { st with status := .COMPLETED }

/-- Embeds `BacktestProcessor.execute`: prepare the account, record `total_items`,
run the backtest loop and finalize. -/
def processor_execute (oracle : ℕ → ℕ → AttemptOutcome) (prices : ℕ → Option ℚ)
    (poll : ℕ → TaskStatus → TaskStatus) (dates : List ℕ) (st : ProcState) :
    ProcState :=
  let st := prepare_account st
  let st := { st with totalItems := dates.length }
  finalize_backtest (execute_backtest oracle prices poll dates st)

/-- A concrete flat account with 100,000 cash and the default fee schedule
of `VirtualAccount` (rates 0.001, minimum commission 5). -/
def acctSample : VirtualAccount :=
  { initial_balance := 100000, current_balance := 100000, stock_price := 0,
    stock_quantity := 0, stock_market_value := 0, total_value := 100000,
    position_side := .LONG, margin_used := 0, short_avg_price := 0,
    short_total_cost := 0, short_positions := [], long_positions := [],
    available_balance := 100000, commission_rate_buy := 1/1000,
    commission_rate_sell := 1/1000, tax_rate := 1/1000, min_commission := 5,
    total_fees := 0 }

/-- A concrete account already short one unit opened at price 100 (fields
consistent with a commit at that price), used to probe SHORT_SELL at a
moved price. -/
def acctShortC4 : VirtualAccount :=
  { acctSample with
      current_balance := 1000, available_balance := 900, stock_quantity := -1,
      stock_price := 100, stock_market_value := -100, total_value := 900,
      position_side := .SHORT, margin_used := 100, short_avg_price := 100,
      short_total_cost := 100,
      short_positions := [{ price := 100, quantity := 1, total_amount := 100,
                            margin_used := 100 }] }

/-- An oracle whose every attempt commits one trade record (tagged 7) and
then resolves null — realizable in the source when, after a successful
`execute_trade` commit, a later step of the attempt (the decision-record or
snapshot commit) raises and `make_decision_with_agent` returns
`(None, None)` without rollback. -/
def failingCommitOracle : ℕ → ℕ → AttemptOutcome :=
  fun _ _ => { eff := fun acct => (acct, [7]), ok := false }

theorem floor_intCast_add_half (n : ℤ) : ⌊(n : ℚ) + 1/2⌋ = n := by
  rw [Int.floor_eq_iff]
  constructor
  · linarith
  · linarith

theorem roundHalfUpZ_intCast (n : ℤ) : roundHalfUpZ (n : ℚ) = n := by
  unfold roundHalfUpZ
  split
  · exact floor_intCast_add_half n
  · rw [show -(n : ℚ) = ((-n : ℤ) : ℚ) by push_cast; ring, floor_intCast_add_half]
    ring

theorem quantHalfUp_intCast_div (s : ℕ) (n : ℤ) :
    quantHalfUp s ((n : ℚ) / 10 ^ s) = (n : ℚ) / 10 ^ s := by
  unfold quantHalfUp
  rw [div_mul_cancel₀, roundHalfUpZ_intCast]
  positivity

theorem quantHalfUp_idem (s : ℕ) (x : ℚ) :
    quantHalfUp s (quantHalfUp s x) = quantHalfUp s x := by
  have h : quantHalfUp s x = ((roundHalfUpZ (x * 10 ^ s) : ℚ) / 10 ^ s) := rfl
  rw [h, quantHalfUp_intCast_div]

theorem q8half_idem (x : ℚ) : q8half (q8half x) = q8half x := quantHalfUp_idem 8 x

theorem quantHalfUp_zero (s : ℕ) : quantHalfUp s 0 = 0 := by
  have h := roundHalfUpZ_intCast 0
  simp only [quantHalfUp, zero_mul]
  rw [show ((0 : ℤ) : ℚ) = 0 by norm_num] at h
  rw [h]
  norm_num

theorem q8half_zero : q8half 0 = 0 := quantHalfUp_zero 8

theorem q8half_max_zero (x : ℚ) : q8half (max 0 (q8half x)) = max 0 (q8half x) := by
  rcases le_total (q8half x) 0 with h | h
  · rw [max_eq_left h, q8half_zero]
  · rw [max_eq_right h, q8half_idem]

theorem ite_neg_zero_eq_max (x : ℚ) : (if x < 0 then (0 : ℚ) else x) = max 0 x := by
  rcases lt_or_le x 0 with h | h
  · simp [h, max_eq_left h.le]
  · simp [not_lt.2 h, max_eq_right h]

/-- Every successful `update_account_for_trade` commits through the final
recompute pass `commitTrade`. -/
theorem update_success_eq_commit (a : VirtualAccount) (action : TradeAction)
    (qty price : ℚ) (fees : Option TradeFees)
    (h : (update_account_for_trade a action qty price fees).2 = none) :
    ∃ a' nb nq, (update_account_for_trade a action qty price fees).1
      = commitTrade a' action nb nq price := by
  cases action <;> cases fees <;>
    simp only [update_account_for_trade, feeTotal] at h ⊢ <;>
    (try split_ifs at h ⊢) <;>
    exact ⟨_, _, _, rfl⟩

theorem commitTrade_position_side (a : VirtualAccount) (act : TradeAction) (nb nq p : ℚ) :
    (commitTrade a act nb nq p).position_side
      = (if (commitTrade a act nb nq p).stock_quantity < 0
         then Side.SHORT else Side.LONG) := by
  simp only [commitTrade]

/-- C1 (counterexample): a BUY rejected for insufficient funds (buy 3 @
50,000 against 100,000 cash, fee total 50) does NOT leave the account
unchanged: the cumulative fee total has already been incremented before the
rejection, refuting the all-or-nothing claim for the failing call itself. -/
theorem C1_counterexample :
    (update_account_for_trade acctSample .BUY 3 50000 (some ⟨50, 0, 50⟩)).2 ≠ none ∧
    (update_account_for_trade acctSample .BUY 3 50000
        (some ⟨50, 0, 50⟩)).1.total_fees ≠ acctSample.total_fees := by
  norm_num +decide [update_account_for_trade, commitTrade, feeTotal, q8half,
    quantHalfUp, roundHalfUpZ, acctSample]

/-- C1 (amended): a rejected `update_account_for_trade` call leaves cash,
quantity, price, market value, total value, side, available cash, both lot
lists and the short-cost fields unchanged, but `total_fees` has already
been incremented by the proposed fee total, and a rejected SHORT_SELL on an
already-short account additionally leaves `margin_used` re-marked to
`roundUp8(|quantity| * price)`; the all-or-nothing behaviour of the spec is
restored only by the caller's session rollback. -/
theorem C1_amended_rejection_effect (a : VirtualAccount) (action : TradeAction)
    (qty price : ℚ) (fees : Option TradeFees) (e : String)
    (h : (update_account_for_trade a action qty price fees).2 = some e) :
    (update_account_for_trade a action qty price fees).1.current_balance
      = a.current_balance ∧
    (update_account_for_trade a action qty price fees).1.stock_quantity
      = a.stock_quantity ∧
    (update_account_for_trade a action qty price fees).1.stock_price = a.stock_price ∧
    (update_account_for_trade a action qty price fees).1.stock_market_value
      = a.stock_market_value ∧
    (update_account_for_trade a action qty price fees).1.total_value = a.total_value ∧
    (update_account_for_trade a action qty price fees).1.position_side
      = a.position_side ∧
    (update_account_for_trade a action qty price fees).1.available_balance
      = a.available_balance ∧
    (update_account_for_trade a action qty price fees).1.long_positions
      = a.long_positions ∧
    (update_account_for_trade a action qty price fees).1.short_positions
      = a.short_positions ∧
    (update_account_for_trade a action qty price fees).1.short_avg_price
      = a.short_avg_price ∧
    (update_account_for_trade a action qty price fees).1.short_total_cost
      = a.short_total_cost ∧
    (update_account_for_trade a action qty price fees).1.total_fees
      = a.total_fees + feeTotal fees ∧
    (update_account_for_trade a action qty price fees).1.margin_used
      = (if action = .SHORT_SELL ∧ a.stock_quantity < 0
         then q8up |a.stock_quantity * price| else a.margin_used) := by
  cases action <;> cases fees <;>
    simp only [update_account_for_trade, feeTotal] at h ⊢ <;>
    (try split_ifs at h ⊢) <;>
    simp_all +decide

/-- C1 (witness): the amended theorem applied to the concrete rejected BUY:
`total_fees` is bumped by the proposed fee while the cash is untouched. -/
theorem C1_witness :
    (update_account_for_trade acctSample .BUY 3 50000 (some ⟨50, 0, 50⟩)).1.total_fees
      = acctSample.total_fees + feeTotal (some ⟨50, 0, 50⟩) ∧
    (update_account_for_trade acctSample .BUY 3 50000
        (some ⟨50, 0, 50⟩)).1.current_balance = acctSample.current_balance := by
  have h := C1_amended_rejection_effect acctSample .BUY 3 50000 (some ⟨50, 0, 50⟩)
    "InsufficientFunds"
    (by norm_num +decide [update_account_for_trade, feeTotal, q8half, quantHalfUp,
      roundHalfUpZ, acctSample])
  exact ⟨h.2.2.2.2.2.2.2.2.2.2.2.1, h.1⟩

/-- C2: starting from an account with cash 100,000 and zero position, BUY 1
@ 50,000 with fee total 50 yields cash 49,950 and quantity 1; the following
SELL 1 @ 55,000 with fee total 55 yields cash 104,895, quantity 0 and
totalValue 104,895. -/
theorem C2_sample_scenario :
    (update_account_for_trade acctSample .BUY 1 50000 (some ⟨50, 0, 50⟩)).2 = none ∧
    (update_account_for_trade acctSample .BUY 1 50000
        (some ⟨50, 0, 50⟩)).1.current_balance = 49950 ∧
    (update_account_for_trade acctSample .BUY 1 50000
        (some ⟨50, 0, 50⟩)).1.stock_quantity = 1 ∧
    (update_account_for_trade
        (update_account_for_trade acctSample .BUY 1 50000 (some ⟨50, 0, 50⟩)).1
        .SELL 1 55000 (some ⟨55, 0, 55⟩)).2 = none ∧
    (update_account_for_trade
        (update_account_for_trade acctSample .BUY 1 50000 (some ⟨50, 0, 50⟩)).1
        .SELL 1 55000 (some ⟨55, 0, 55⟩)).1.current_balance = 104895 ∧
    (update_account_for_trade
        (update_account_for_trade acctSample .BUY 1 50000 (some ⟨50, 0, 50⟩)).1
        .SELL 1 55000 (some ⟨55, 0, 55⟩)).1.stock_quantity = 0 ∧
    (update_account_for_trade
        (update_account_for_trade acctSample .BUY 1 50000 (some ⟨50, 0, 50⟩)).1
        .SELL 1 55000 (some ⟨55, 0, 55⟩)).1.total_value = 104895 := by
  norm_num +decide [update_account_for_trade, commitTrade, feeTotal, q8half,
    quantHalfUp, roundHalfUpZ, sellLongFifo, acctSample]

/-- C3: `update_account_for_trade` with COVER_SHORT raises exactly when the
covered quantity exceeds the absolute short position; there is no
cash-sufficiency check, and the committed balance is the clamped
`max(0, half8(cash - half8(qty*price) - fees))`, silently discarding any
deficit. -/
theorem C3_cover_short_no_cash_check (a : VirtualAccount) (qty price : ℚ)
    (fees : Option TradeFees) :
    ((update_account_for_trade a .COVER_SHORT qty price fees).2 ≠ none ↔
      a.stock_quantity + qty > 0) ∧
    (a.stock_quantity + qty ≤ 0 →
      (update_account_for_trade a .COVER_SHORT qty price fees).1.current_balance
        = max 0 (q8half (a.current_balance - q8half (qty * price) - feeTotal fees))) := by
  constructor
  · cases fees <;> simp only [update_account_for_trade, feeTotal] <;>
      split_ifs with hc <;> simp [hc]
  · intro hle
    have hnc : ¬ a.stock_quantity + qty > 0 := not_lt.2 hle
    cases fees <;>
      simp only [update_account_for_trade, feeTotal, commitTrade, if_neg hnc] <;>
      norm_num +decide

/-- C3 (witness): covering 1 short unit at price 100 with fee 5 against
only 10 cash succeeds and clamps the committed balance to 0 — the deficit
is discarded rather than reported. -/
theorem C3_witness :
    (update_account_for_trade
        { acctSample with current_balance := 10, stock_quantity := -1 }
        .COVER_SHORT 1 100 (some ⟨5, 0, 5⟩)).1.current_balance = 0 := by
  have h := (C3_cover_short_no_cash_check
    { acctSample with current_balance := 10, stock_quantity := -1 }
    1 100 (some ⟨5, 0, 5⟩)).2 (by norm_num [acctSample])
  rw [h]
  norm_num [acctSample, feeTotal, q8half, quantHalfUp, roundHalfUpZ]

/-- C4 (counterexample): on an account already short 1 unit opened at price
100 (cash 1000, availableCash 900, stored marginUsed 100), a SHORT_SELL of
1 unit at the moved price 500 with zero fees satisfies the claim's guard
`availableCash - marginUsed = 800 ≥ qty*price + fees = 500`, yet the code
rejects it: the guard actually uses the margin re-marked to the current
price (500), so the claimed "if and only if" fails at this input. -/
theorem C4_counterexample :
    (update_account_for_trade acctShortC4 .SHORT_SELL 1 500 (some ⟨0, 0, 0⟩)).2 ≠ none ∧
    1 * 500 + (0 : ℚ) ≤ acctShortC4.available_balance - acctShortC4.margin_used := by
  constructor
  · norm_num +decide [update_account_for_trade, feeTotal, q8half, quantHalfUp,
      roundHalfUpZ, q8up, roundUpZ, acctShortC4, acctSample]
  · norm_num [acctShortC4, acctSample]

/-- C4 (amended): SHORT_SELL first re-marks the margin to
`roundUp8(|quantity| * price)` when the account is already short, and
succeeds iff `half8(qty*price) + fees ≤ availableCash - (re-marked)
margin`; on success the position decreases by qty, cash becomes
`max(0, half8(cash + half8(qty*price) - fees))`, a short lot
`{price, qty, margin = qty*price}` is appended, and the final marginUsed is
recomputed as `half8(|newQuantity| * price)` — not incremented by
`qty*price` as claimed. -/
theorem C4_short_sell_corrected (a : VirtualAccount) (qty price : ℚ)
    (fees : Option TradeFees) :
    ((update_account_for_trade a .SHORT_SELL qty price fees).2 = none ↔
      q8half (qty * price) + feeTotal fees ≤
        a.available_balance -
          (if a.stock_quantity < 0 then q8up |a.stock_quantity * price|
           else a.margin_used)) ∧
    (q8half (qty * price) + feeTotal fees ≤
        a.available_balance -
          (if a.stock_quantity < 0 then q8up |a.stock_quantity * price|
           else a.margin_used) →
      (update_account_for_trade a .SHORT_SELL qty price fees).1.stock_quantity
          = q8half (a.stock_quantity - qty) ∧
      (update_account_for_trade a .SHORT_SELL qty price fees).1.current_balance
          = max 0 (q8half (a.current_balance + q8half (qty * price) - feeTotal fees)) ∧
      (update_account_for_trade a .SHORT_SELL qty price fees).1.short_positions
          = a.short_positions ++
              [{ price := price, quantity := qty, total_amount := price * qty,
                 margin_used := price * qty }] ∧
      (update_account_for_trade a .SHORT_SELL qty price fees).1.margin_used
          = (if q8half (a.stock_quantity - qty) < 0
             then q8half |q8half (q8half (a.stock_quantity - qty) * price)| else 0)) := by
  cases fees <;>
    simp only [update_account_for_trade, feeTotal, update_short_positions, commitTrade] <;>
    split_ifs with h1 h2 <;>
    simp_all [not_lt, le_sub_iff_add_le, q8half_zero] <;>
    linarith

/-- C4 (witness): the amended theorem at a concrete flat account: SHORT_SELL
1 @ 100 with fee 5 yields quantity -1, cash 100,095, the appended short lot
and final marginUsed 100. -/
theorem C4_witness :
    (update_account_for_trade acctSample .SHORT_SELL 1 100
        (some ⟨5, 0, 5⟩)).1.stock_quantity = -1 ∧
    (update_account_for_trade acctSample .SHORT_SELL 1 100
        (some ⟨5, 0, 5⟩)).1.current_balance = 100095 ∧
    (update_account_for_trade acctSample .SHORT_SELL 1 100
        (some ⟨5, 0, 5⟩)).1.short_positions
      = [{ price := 100, quantity := 1, total_amount := 100, margin_used := 100 }] ∧
    (update_account_for_trade acctSample .SHORT_SELL 1 100
        (some ⟨5, 0, 5⟩)).1.margin_used = 100 := by
  obtain ⟨h1, h2, h3, h4⟩ := (C4_short_sell_corrected acctSample 1 100 (some ⟨5, 0, 5⟩)).2
    (by norm_num [acctSample, feeTotal, q8half, quantHalfUp, roundHalfUpZ])
  refine ⟨?_, ?_, ?_, ?_⟩
  · rw [h1]; norm_num [acctSample, q8half, quantHalfUp, roundHalfUpZ]
  · rw [h2]; norm_num [acctSample, feeTotal, q8half, quantHalfUp, roundHalfUpZ]
  · rw [h3]; norm_num [acctSample]
  · rw [h4]; norm_num [q8half, quantHalfUp, roundHalfUpZ, acctSample]

/-- C5 (counterexample): the notional `qty*price` is quantized half-up as
an intermediate before the cash update: buying 0.00000005 units at price
0.1 against 100,000 cash commits cash 99,999.99999999, whereas a single
final half-up quantization of the unrounded chain
`cash - qty*price - fees` would give 100,000 — refuting "only unrounded
intermediate arithmetic before the final quantization". -/
theorem C5_counterexample :
    (update_account_for_trade acctSample .BUY (5/100000000) (1/10) none).2 = none ∧
    (update_account_for_trade acctSample .BUY (5/100000000) (1/10) none).1.current_balance
      ≠ q8half (acctSample.current_balance - 5/100000000 * (1/10) - feeTotal none) := by
  norm_num +decide [update_account_for_trade, commitTrade, feeTotal, q8half,
    quantHalfUp, roundHalfUpZ, acctSample]

/-- C5 (amended): after every successful apply the committed fields are
re-derived by the final pass: quantity and (for non-HOLD) cash are fixed
points of half-up 8-digit quantization, marketValue, marginUsed and
totalValue are half-up quantizations of their defining expressions, but
availableCash is quantized with ROUND_DOWN (not half-up) and clamped at 0;
the intermediate notional is rounded before the cash update (see the
counterexample). -/
theorem C5_amended_final_pass (a : VirtualAccount) (action : TradeAction)
    (qty price : ℚ) (fees : Option TradeFees)
    (h : (update_account_for_trade a action qty price fees).2 = none) :
    (update_account_for_trade a action qty price fees).1.stock_quantity
      = q8half ((update_account_for_trade a action qty price fees).1.stock_quantity) ∧
    (action ≠ .HOLD →
      (update_account_for_trade a action qty price fees).1.current_balance
        = q8half ((update_account_for_trade a action qty price fees).1.current_balance)) ∧
    (update_account_for_trade a action qty price fees).1.stock_market_value
      = q8half ((update_account_for_trade a action qty price fees).1.stock_quantity
          * price) ∧
    (update_account_for_trade a action qty price fees).1.margin_used
      = (if (update_account_for_trade a action qty price fees).1.stock_quantity < 0
         then q8half
            |(update_account_for_trade a action qty price fees).1.stock_market_value|
         else 0) ∧
    (update_account_for_trade a action qty price fees).1.total_value
      = q8half ((update_account_for_trade a action qty price fees).1.current_balance
          + (update_account_for_trade a action qty price fees).1.stock_market_value) ∧
    (update_account_for_trade a action qty price fees).1.available_balance
      = max 0 (if (update_account_for_trade a action qty price fees).1.stock_quantity < 0
          then q8down ((update_account_for_trade a action qty price fees).1.current_balance
            - |(update_account_for_trade a action qty price fees).1.stock_market_value|)
          else q8down ((update_account_for_trade a action qty price fees).1.current_balance)) := by
  obtain ⟨a', nb, nq, he⟩ := update_success_eq_commit a action qty price fees h
  rw [he]
  refine ⟨?_, ?_, ?_, ?_, ?_, ?_⟩
  · simp [commitTrade, q8half_idem]
  · intro hact
    simp only [commitTrade, if_neg hact]
    exact (q8half_max_zero nb).symm
  · simp [commitTrade]
  · simp [commitTrade, q8half_zero]
  · simp [commitTrade]
  · simp only [commitTrade]
    exact ite_neg_zero_eq_max _

/-- C5 (witness): the amended final-pass equations at the concrete BUY of
the sample scenario. -/
theorem C5_witness :
    (update_account_for_trade acctSample .BUY 1 50000 (some ⟨50, 0, 50⟩)).1.total_value
      = q8half ((update_account_for_trade acctSample .BUY 1 50000
            (some ⟨50, 0, 50⟩)).1.current_balance
          + (update_account_for_trade acctSample .BUY 1 50000
            (some ⟨50, 0, 50⟩)).1.stock_market_value) ∧
    (update_account_for_trade acctSample .BUY 1 50000 (some ⟨50, 0, 50⟩)).1.available_balance
      = max 0 (if (update_account_for_trade acctSample .BUY 1 50000
            (some ⟨50, 0, 50⟩)).1.stock_quantity < 0
          then q8down ((update_account_for_trade acctSample .BUY 1 50000
              (some ⟨50, 0, 50⟩)).1.current_balance
            - |(update_account_for_trade acctSample .BUY 1 50000
              (some ⟨50, 0, 50⟩)).1.stock_market_value|)
          else q8down ((update_account_for_trade acctSample .BUY 1 50000
              (some ⟨50, 0, 50⟩)).1.current_balance)) := by
  have h := C5_amended_final_pass acctSample .BUY 1 50000 (some ⟨50, 0, 50⟩)
    (by norm_num +decide [update_account_for_trade, commitTrade, feeTotal, q8half,
      quantHalfUp, roundHalfUpZ, acctSample])
  exact ⟨h.2.2.2.2.1, h.2.2.2.2.2⟩

/-- C6: after every successful ledger operation (including HOLD) the stored
side matches the sign convention: SHORT when quantity < 0, LONG when
quantity > 0 or quantity = 0. -/
theorem C6_side_sign_consistency (a : VirtualAccount) (action : TradeAction)
    (qty price : ℚ) (fees : Option TradeFees)
    (h : (update_account_for_trade a action qty price fees).2 = none) :
    (update_account_for_trade a action qty price fees).1.position_side
      = (if (update_account_for_trade a action qty price fees).1.stock_quantity < 0
         then Side.SHORT else Side.LONG) := by
  obtain ⟨a', nb, nq, he⟩ := update_success_eq_commit a action qty price fees h
  rw [he, commitTrade_position_side]

/-- C6 (witness): a HOLD on the flat sample account keeps side LONG. -/
theorem C6_witness :
    (update_account_for_trade acctSample .HOLD 0 10 none).1.position_side = .LONG := by
  have h := C6_side_sign_consistency acctSample .HOLD 0 10 none rfl
  rw [h]
  norm_num +decide [update_account_for_trade, commitTrade, q8half, quantHalfUp,
    roundHalfUpZ, acctSample]

theorem max0_q8down_eq_floor8 (x : ℚ) :
    max 0 (q8down x) = max 0 ((⌊x * 10 ^ 8⌋ : ℚ) / 10 ^ 8) := by
  unfold q8down roundDownZ
  rcases le_or_lt 0 (x * 10 ^ 8) with h | h
  · rw [if_pos h]
  · rw [if_neg (not_le.2 h)]
    have hc : (⌈x * 10 ^ 8⌉ : ℤ) ≤ 0 := Int.ceil_le.mpr (by exact_mod_cast h.le)
    have hf : (⌊x * 10 ^ 8⌋ : ℤ) ≤ 0 := le_trans (Int.floor_le_ceil _) hc
    have hc' : ((⌈x * 10 ^ 8⌉ : ℤ) : ℚ) / 10 ^ 8 ≤ 0 := by
      apply div_nonpos_of_nonpos_of_nonneg
      · exact_mod_cast hc
      · positivity
    have hf' : ((⌊x * 10 ^ 8⌋ : ℤ) : ℚ) / 10 ^ 8 ≤ 0 := by
      apply div_nonpos_of_nonpos_of_nonneg
      · exact_mod_cast hf
      · positivity
    rw [max_eq_left hc', max_eq_left hf']

/-- C7: for positive price (and the invariant-respecting nonnegative
availableCash), the maximum direct-buy quantity of the Sizer equals the
spec's formula `max(0, floor8((availableCash - (feeModel(BUY,
ceil8(availableCash/price), price) + minCommission)) / price))`, with
`ceil8`/`floor8` the genuine 8-decimal ceiling/floor. -/
theorem C7_max_direct_buy (a : VirtualAccount) (price : ℚ) (hp : 0 < price)
    (hav : 0 ≤ a.available_balance) :
    calculate_max_direct_buy_quantity a price none = spec_maxDirectBuy a price := by
  simp only [calculate_max_direct_buy_quantity, spec_maxDirectBuy, Option.getD_none,
    q8up, roundUpZ]
  have h1 : 0 ≤ a.available_balance / price * 10 ^ 8 := by positivity
  rw [if_pos h1]
  exact max0_q8down_eq_floor8 _

/-- C7 (witness): the equality at the concrete sample account and price
100. -/
theorem C7_witness :
    calculate_max_direct_buy_quantity acctSample 100 none
      = spec_maxDirectBuy acctSample 100 :=
  C7_max_direct_buy acctSample 100 (by norm_num) (by norm_num [acctSample])

theorem retryDecision_calls_le (attempts : ℕ → AttemptOutcome) :
    ∀ n used acc, (retryDecision attempts n used acc).2 ≤ used + n := by
  intro n
  induction n with
  | zero => intro used acc; simp [retryDecision]
  | succ m ih =>
    intro used acc
    simp only [retryDecision]
    split
    · simp
    · exact le_trans (ih (used + 1) _) (by omega)

/-- When every attempt fails AND every failed attempt committed nothing
(inert effect), the retry loop returns the input state untouched after
consuming all attempts. -/
theorem retryDecision_all_fail_inert (attempts : ℕ → AttemptOutcome) :
    ∀ n used acc, (∀ a, a < used + n → (attempts a).ok = false) →
      (∀ a, a < used + n → ∀ acct, (attempts a).eff acct = (acct, [])) →
      retryDecision attempts n used acc = (acc, used + n) := by
  intro n
  induction n with
  | zero => intro used acc _ _; simp [retryDecision]
  | succ m ih =>
    intro used acc hfail hinert
    obtain ⟨a1, a2⟩ := acc
    simp only [retryDecision, hinert used (by omega) a1, hfail used (by omega),
      List.append_nil]
    rw [ih (used + 1) (a1, a2) (fun a ha => hfail a (by omega))
      (fun a ha => hinert a (by omega))]
    have h3 : used + 1 + m = used + (m + 1) := by omega
    rw [h3]
    simp

theorem execute_single_decision_all_fail (price : Option ℚ)
    (attempts : ℕ → AttemptOutcome) (acct : VirtualAccount)
    (hfail : ∀ a, a < 3 → (attempts a).ok = false)
    (hinert : ∀ a, a < 3 → ∀ b, (attempts a).eff b = (b, [])) :
    (execute_single_decision price attempts acct).1 = (acct, []) := by
  cases price with
  | none => rfl
  | some p =>
    simp only [execute_single_decision]
    rw [retryDecision_all_fail_inert attempts 3 0 (acct, [])
      (fun a ha => hfail a (by omega)) (fun a ha => hinert a (by omega))]

theorem backtestLoop_id_invariants (oracle : ℕ → ℕ → AttemptOutcome)
    (prices : ℕ → Option ℚ) :
    ∀ (l : List ℕ) (i : ℕ) (st : ProcState), st.status = .RUNNING →
      (backtestLoop oracle prices (fun _ s => s) i l st).status = .RUNNING ∧
      (backtestLoop oracle prices (fun _ s => s) i l st).totalItems = st.totalItems ∧
      (backtestLoop oracle prices (fun _ s => s) i l st).processedItems
        = (if l.isEmpty then st.processedItems else i + l.length) := by
  intro l
  induction l with
  | nil => intro i st hst; simp [backtestLoop, hst]
  | cons d rest ih =>
    intro i st hst
    simp only [backtestLoop, hst]
    rw [if_neg (by simp)]
    have h := ih (i + 1)
      { st with
          account := (execute_single_decision (prices d) (oracle d) st.account).1.1
          trades := st.trades ++
            ((execute_single_decision (prices d) (oracle d) st.account).1.2.map
              (fun t => (d, t)))
          status := .RUNNING
          processedItems := i + 1 } rfl
    refine ⟨h.1, h.2.1, ?_⟩
    rw [h.2.2]
    cases rest <;> simp <;> omega

theorem backtestLoop_id_no_trade_of_fail (oracle : ℕ → ℕ → AttemptOutcome)
    (prices : ℕ → Option ℚ) (j : ℕ) (hfail : ∀ a, (oracle j a).ok = false)
    (hinert : ∀ a b, (oracle j a).eff b = (b, [])) :
    ∀ (l : List ℕ) (i : ℕ) (st : ProcState), st.status = .RUNNING → ∀ t : ℕ,
      (j, t) ∈ (backtestLoop oracle prices (fun _ s => s) i l st).trades →
      (j, t) ∈ st.trades := by
  intro l
  induction l with
  | nil => intro i st hst t ht; simpa [backtestLoop] using ht
  | cons d rest ih =>
    intro i st hst t ht
    simp only [backtestLoop, hst] at ht
    rw [if_neg (by simp)] at ht
    have h2 := ih (i + 1) _ rfl t ht
    simp only [List.mem_append] at h2
    rcases h2 with h2 | h2
    · exact h2
    · rcases List.mem_map.1 h2 with ⟨t', _, heq⟩
      by_cases hd : d = j
      · subst hd
        rw [execute_single_decision_all_fail (prices d) (oracle d) st.account
          (fun a _ => hfail a) (fun a _ b => hinert a b)] at h2
        simp at h2
      · exact absurd (congrArg Prod.fst heq) (by simpa using hd)

theorem backtestLoop_id_append (oracle : ℕ → ℕ → AttemptOutcome)
    (prices : ℕ → Option ℚ) (l2 : List ℕ) :
    ∀ (l1 : List ℕ) (i : ℕ) (st : ProcState), st.status = .RUNNING →
      backtestLoop oracle prices (fun _ s => s) i (l1 ++ l2) st
        = backtestLoop oracle prices (fun _ s => s) (i + l1.length) l2
            (backtestLoop oracle prices (fun _ s => s) i l1 st) := by
  intro l1
  induction l1 with
  | nil => intro i st _; simp [backtestLoop]
  | cons d rest ih =>
    intro i st hst
    simp only [List.cons_append, backtestLoop, hst, List.append_eq]
    rw [if_neg (by simp), if_neg (by simp)]
    have hstep := ih (i + 1)
      { st with
          account := (execute_single_decision (prices d) (oracle d) st.account).1.1
          trades := st.trades ++
            ((execute_single_decision (prices d) (oracle d) st.account).1.2.map
              (fun t => (d, t)))
          status := .RUNNING
          processedItems := i + 1 } rfl
    rw [hstep]
    congr 1
    simp
    omega

theorem backtestLoop_pause (oracle : ℕ → ℕ → AttemptOutcome)
    (prices : ℕ → Option ℚ) (k : ℕ) :
    ∀ (l : List ℕ) (i : ℕ) (st : ProcState), st.status = .RUNNING →
      i ≤ k → k - i < l.length →
      backtestLoop oracle prices (fun n s => if n = k then .PAUSED else s) i l st
        = { backtestLoop oracle prices (fun _ s => s) i (l.take (k - i)) st with
            status := .PAUSED } := by
  intro l
  induction l with
  | nil => intro i st _ _ hlen; simp at hlen
  | cons d rest ih =>
    intro i st hst hik hlen
    by_cases hek : i = k
    · subst hek
      simp only [backtestLoop, hst, Nat.sub_self, List.take_zero]
      simp
    · have hik' : i < k := lt_of_le_of_ne hik hek
      obtain ⟨n, hn⟩ : ∃ n, k - i = n + 1 := ⟨k - i - 1, by omega⟩
      rw [hn, List.take_succ_cons]
      simp only [backtestLoop, hst]
      rw [if_neg hek, if_neg (by simp), if_neg (by simp)]
      have hstep := ih (i + 1)
        { st with
            account := (execute_single_decision (prices d) (oracle d) st.account).1.1
            trades := st.trades ++
              ((execute_single_decision (prices d) (oracle d) st.account).1.2.map
                (fun t => (d, t)))
            status := .RUNNING
            processedItems := i + 1 } rfl (by omega)
        (by simp only [List.length_cons] at hlen; omega)
      rw [hstep]
      have h2 : k - (i + 1) = n := by omega
      rw [h2]

theorem processor_execute_pending (oracle : ℕ → ℕ → AttemptOutcome)
    (prices : ℕ → Option ℚ) (poll : ℕ → TaskStatus → TaskStatus)
    (dates : List ℕ) (st : ProcState) (hst : st.status = .PENDING) :
    processor_execute oracle prices poll dates st
      = finalize_backtest (backtestLoop oracle prices poll 0 dates
          ⟨reset_account st.account, [], .RUNNING, 0, dates.length⟩) := by
  norm_num +decide [processor_execute, prepare_account, execute_backtest, hst,
    List.drop_zero]

theorem processor_execute_paused (oracle : ℕ → ℕ → AttemptOutcome)
    (prices : ℕ → Option ℚ) (poll : ℕ → TaskStatus → TaskStatus)
    (dates : List ℕ) (st : ProcState) (hst : st.status = .PAUSED) :
    processor_execute oracle prices poll dates st
      = finalize_backtest (backtestLoop oracle prices poll st.processedItems
          (dates.drop st.processedItems)
          ⟨st.account, st.trades, .RUNNING, st.processedItems, dates.length⟩) := by
  norm_num +decide [processor_execute, prepare_account, execute_backtest, hst]

/-- C9 (counterexample): with an oracle whose every attempt commits one
trade record and then resolves null (as the source allows: `execute_trade`
commits inside the attempt and the null-result path performs no rollback),
a single-timestamp run has all three attempts fail — each attempt's `ok` is
false — the run still completes with the counter advanced, yet a trade
tagged with that timestamp WAS produced, refuting "that timestamp is
skipped with no Trade produced". -/
theorem C9_counterexample :
    (failingCommitOracle 0 0).ok = false ∧
    (failingCommitOracle 0 1).ok = false ∧
    (failingCommitOracle 0 2).ok = false ∧
    (processor_execute failingCommitOracle (fun _ => some 1) (fun _ s => s) [0]
        ⟨acctSample, [], .PENDING, 0, 0⟩).status = .COMPLETED ∧
    (processor_execute failingCommitOracle (fun _ => some 1) (fun _ s => s) [0]
        ⟨acctSample, [], .PENDING, 0, 0⟩).processedItems = 1 ∧
    (0, 7) ∈ (processor_execute failingCommitOracle (fun _ => some 1) (fun _ s => s) [0]
        ⟨acctSample, [], .PENDING, 0, 0⟩).trades := by
  refine ⟨rfl, rfl, rfl, ?_, ?_, ?_⟩ <;>
    simp [processor_execute, prepare_account, execute_backtest, finalize_backtest,
      backtestLoop, execute_single_decision, retryDecision, failingCommitOracle,
      reset_account]

/-- C9 (amended): per decision timestamp the runner makes at most 3 oracle
attempts; when every attempt fails AND the failed attempts committed
nothing, the ledger and the trade list are untouched; and a run whose
oracle fails all attempts at one timestamp always advances the progress
counter past it and terminates COMPLETED, and writes no trade tagged with
that timestamp exactly under the proviso that its failed attempts committed
nothing — unlike the original claim, a failed attempt may already have
committed trades and ledger mutations, since `execute_trade` commits inside
the attempt and the exception/null-result paths perform no rollback (see
the counterexample). -/
theorem C9_oracle_retry_policy :
    (∀ (price : Option ℚ) (attempts : ℕ → AttemptOutcome) (account : VirtualAccount),
      (execute_single_decision price attempts account).2 ≤ 3) ∧
    (∀ (price : Option ℚ) (attempts : ℕ → AttemptOutcome) (account : VirtualAccount),
      (∀ a, a < 3 → (attempts a).ok = false) →
      (∀ a, a < 3 → ∀ b, (attempts a).eff b = (b, [])) →
      (execute_single_decision price attempts account).1 = (account, [])) ∧
    (∀ (oracle : ℕ → ℕ → AttemptOutcome) (prices : ℕ → Option ℚ) (dates : List ℕ)
        (j : ℕ) (st : ProcState), st.status = .PENDING →
      (∀ a, (oracle j a).ok = false) →
      (processor_execute oracle prices (fun _ s => s) dates st).status = .COMPLETED ∧
      (processor_execute oracle prices (fun _ s => s) dates st).processedItems
        = dates.length ∧
      ((∀ a b, (oracle j a).eff b = (b, [])) →
        ∀ t : ℕ,
          (j, t) ∉ (processor_execute oracle prices (fun _ s => s) dates st).trades)) := by
  refine ⟨?_, ?_, ?_⟩
  · intro price attempts account
    cases price with
    | none => simp [execute_single_decision]
    | some p => simpa using retryDecision_calls_le attempts 3 0 (account, [])
  · intro price attempts account hfail hinert
    exact execute_single_decision_all_fail price attempts account hfail hinert
  · intro oracle prices dates j st hst hfail
    rw [processor_execute_pending oracle prices _ dates st hst]
    obtain ⟨hs, htot, hproc⟩ := backtestLoop_id_invariants oracle prices dates 0
      ⟨reset_account st.account, [], .RUNNING, 0, dates.length⟩ rfl
    rw [finalize_backtest, if_neg (by rw [hs]; simp)]
    refine ⟨rfl, ?_, ?_⟩
    · simp only []
      rw [hproc]
      cases dates <;> simp
    · intro hinert t ht
      simp only [] at ht
      have hmem := backtestLoop_id_no_trade_of_fail oracle prices j hfail hinert dates 0
        ⟨reset_account st.account, [], .RUNNING, 0, dates.length⟩ rfl t ht
      simpa using hmem

/-- C9 (witness): the amended theorem at a concrete 2-timestamp run whose
oracle always fails without committing anything: the run reaches COMPLETED
with both items processed and no trade for the failed timestamp. -/
theorem C9_witness :
    (processor_execute (fun _ _ => ⟨fun b => (b, []), false⟩) (fun _ => some 1)
        (fun _ s => s) [0, 1] ⟨acctSample, [], .PENDING, 0, 0⟩).status = .COMPLETED ∧
    (processor_execute (fun _ _ => ⟨fun b => (b, []), false⟩) (fun _ => some 1)
        (fun _ s => s) [0, 1] ⟨acctSample, [], .PENDING, 0, 0⟩).processedItems = 2 ∧
    (0, 7) ∉ (processor_execute (fun _ _ => ⟨fun b => (b, []), false⟩) (fun _ => some 1)
        (fun _ s => s) [0, 1] ⟨acctSample, [], .PENDING, 0, 0⟩).trades := by
  have h := C9_oracle_retry_policy.2.2 (fun _ _ => ⟨fun b => (b, []), false⟩)
    (fun _ => some 1) [0, 1] 0 ⟨acctSample, [], .PENDING, 0, 0⟩ rfl (fun a => rfl)
  exact ⟨h.1, by simpa using h.2.1, h.2.2 (fun a b => rfl) 7⟩

/-- C10: a task started from PENDING that is paused at item k (k before the
end) stops with status PAUSED and processedItems = k, and resuming it (no
reset, iteration restarting at processedItems) produces exactly the same
final state — ledger included — as the uninterrupted run over the same
timestamps with the same oracle. -/
theorem C10_pause_resume_equivalence (oracle : ℕ → ℕ → AttemptOutcome)
    (prices : ℕ → Option ℚ) (dates : List ℕ) (k : ℕ) (st0 : ProcState)
    (h0 : st0.status = .PENDING) (hk : k < dates.length) :
    (processor_execute oracle prices (fun i s => if i = k then .PAUSED else s)
        dates st0).status = .PAUSED ∧
    (processor_execute oracle prices (fun i s => if i = k then .PAUSED else s)
        dates st0).processedItems = k ∧
    processor_execute oracle prices (fun _ s => s) dates
        (processor_execute oracle prices (fun i s => if i = k then .PAUSED else s) dates st0)
      = processor_execute oracle prices (fun _ s => s) dates st0 := by
  have hleg1 : processor_execute oracle prices (fun i s => if i = k then .PAUSED else s)
      dates st0
      = { backtestLoop oracle prices (fun _ s => s) 0 (dates.take k)
            ⟨reset_account st0.account, [], .RUNNING, 0, dates.length⟩ with
          status := .PAUSED } := by
    rw [processor_execute_pending oracle prices _ dates st0 h0]
    rw [backtestLoop_pause oracle prices k dates 0 _ rfl (Nat.zero_le k)
      (by simpa using hk)]
    simp only [Nat.sub_zero]
    rw [finalize_backtest, if_pos (Or.inr rfl)]
  obtain ⟨hS, hT, hP⟩ := backtestLoop_id_invariants oracle prices (dates.take k) 0
    ⟨reset_account st0.account, [], .RUNNING, 0, dates.length⟩ rfl
  have hlen : (dates.take k).length = k := by rw [List.length_take]; omega
  have hPk : (backtestLoop oracle prices (fun _ s => s) 0 (dates.take k)
      ⟨reset_account st0.account, [], .RUNNING, 0, dates.length⟩).processedItems = k := by
    rw [hP]
    rcases Nat.eq_zero_or_pos k with hk0 | hk0
    · subst hk0
      simp
    · have hne : dates.take k ≠ [] := by
        intro hnil
        rw [hnil] at hlen
        simp at hlen
        omega
      rw [if_neg (by simpa [List.isEmpty_iff] using hne)]
      omega
  refine ⟨by rw [hleg1], by rw [hleg1]; exact hPk, ?_⟩
  have hps : (processor_execute oracle prices (fun i s => if i = k then .PAUSED else s)
      dates st0).status = .PAUSED := by rw [hleg1]
  rw [processor_execute_paused oracle prices _ dates _ hps,
    processor_execute_pending oracle prices (fun _ s => s) dates st0 h0, hleg1]
  dsimp only
  have happ := backtestLoop_id_append oracle prices (dates.drop k) (dates.take k) 0
    ⟨reset_account st0.account, [], .RUNNING, 0, dates.length⟩ rfl
  rw [List.take_append_drop] at happ
  rw [hlen, Nat.zero_add] at happ
  rw [happ]
  generalize hgen : backtestLoop oracle prices (fun _ s => s) 0 (dates.take k)
    ⟨reset_account st0.account, [], .RUNNING, 0, dates.length⟩ = L at hS hT hPk ⊢
  obtain ⟨La, Lt, Ls, Lp, Ltot⟩ := L
  simp only at hS hT hPk
  subst hS
  subst hT
  subst hPk
  rfl

/-- C10 (witness): the equivalence at a concrete 3-timestamp run paused
after 1 item. -/
theorem C10_witness :
    (processor_execute (fun _ _ => ⟨fun b => (b, []), false⟩) (fun _ => some 1)
        (fun i s => if i = 1 then .PAUSED else s) [0, 1, 2]
        ⟨acctSample, [], .PENDING, 0, 0⟩).status = .PAUSED ∧
    processor_execute (fun _ _ => ⟨fun b => (b, []), false⟩) (fun _ => some 1) (fun _ s => s) [0, 1, 2]
        (processor_execute (fun _ _ => ⟨fun b => (b, []), false⟩) (fun _ => some 1)
          (fun i s => if i = 1 then .PAUSED else s) [0, 1, 2]
          ⟨acctSample, [], .PENDING, 0, 0⟩)
      = processor_execute (fun _ _ => ⟨fun b => (b, []), false⟩) (fun _ => some 1) (fun _ s => s) [0, 1, 2]
          ⟨acctSample, [], .PENDING, 0, 0⟩ := by
  have h := C10_pause_resume_equivalence (fun _ _ => ⟨fun b => (b, []), false⟩) (fun _ => some 1) [0, 1, 2] 1
    ⟨acctSample, [], .PENDING, 0, 0⟩ rfl (by norm_num)
  exact ⟨h.1, h.2.2⟩
